import Mathlib

/-!
# server.c: a forking stream socket server

A shallow embedding of `src/server.c`.  The program resolves a list of candidate
addresses, binds a listening socket to the first candidate it can, and then accepts
connections forever; every accepted connection is handed to a forked child that runs
`send_to_new_fd`, a loop that reads standard input with `fgets` and sends a fixed
100-byte array to the peer.  Dead children are reaped by `sigchld_handler`.

The operating system is modelled by the values its calls return: every definition that
embeds a piece of C takes the return values of the calls it makes as arguments, and
keeps a log of the calls it made.  Bytes are natural numbers, descriptors and return
values are integers (`-1` is the failure value, as in C).
-/

namespace Server

/-! ## Diagnostics -/

/-- Diagnostics the program writes to the error stream (`perror` and `fprintf(stderr, ..)`). -/
inductive Diag where
  | socket
  | setsockopt
  | bind
  | failedToBind
  | accept
  | send
  deriving DecidableEq

/-! ## The relay worker: `send_to_new_fd` -/

/-- The newline character. -/
def NL : Nat := 10

/-- Size of the array `char message[100]`. -/
def MESSAGE_SIZE : Nat := 100

/-- `memset(buf, v, n)`: the first `n` cells of `buf` become `v`. -/
def memset (buf : List Nat) (v n : Nat) : List Nat :=
  List.replicate n v ++ buf.drop n

/-- Characters `fgets` moves out of the stream when it may store at most `k` of them: it
stops after a newline (which it keeps), at the end of the input, or once `k` characters
are stored.  The result is the characters taken and the stream that is left. -/
def fgetsChars : Nat → List Nat → List Nat × List Nat
  | 0, s => ([], s)
  | _ + 1, [] => ([], [])
  | k + 1, c :: s =>
    if c = NL then ([c], s)
    else (c :: (fgetsChars k s).1, (fgetsChars k s).2)

/-- `fgets(buf, n, stdin)`: at most `n - 1` characters are read and a terminating zero is
stored after them; the cells behind it keep their value.  At end of input with nothing
read the array is left unchanged (the call returns `NULL`).  The result is the array and
the stream that is left. -/
def fgets (buf : List Nat) (n : Nat) (stdin : List Nat) : List Nat × List Nat :=
  if stdin = [] then (buf, [])
  else
    let r := fgetsChars (n - 1) stdin
    (r.1 ++ [0] ++ buf.drop (r.1.length + 1), r.2)

/-- State of a process running `send_to_new_fd(new_fd)`. -/
structure Relay where
  /-- The argument of `send_to_new_fd`. -/
  new_fd : Int
  /-- The local array `char message[100]`. -/
  message : List Nat
  /-- What is left to read on standard input; the end of the list is the end of input. -/
  stdin : List Nat
  /-- The `send` calls made so far: descriptor and the bytes handed over. -/
  sent : List (Int × List Nat)
  /-- Diagnostics written so far. -/
  diags : List Diag
  deriving DecidableEq

/-- One pass through the body of `while (1)` in `send_to_new_fd`; `sendRet` is the value
the `send` call of this pass returns.  The body has no `break` and no `return`. -/
def sendIter (w : Relay) (sendRet : Int) : Relay :=
  let m0 := memset w.message 0 MESSAGE_SIZE
  let r := fgets m0 100 w.stdin
  let w1 : Relay :=
    { w with message := r.1, stdin := r.2, sent := w.sent ++ [(w.new_fd, r.1.take 100)] }
  if sendRet = -1 then { w1 with diags := w1.diags ++ [Diag.send] } else w1

/-- The loop of `send_to_new_fd`, run for as many passes as there are `send` results. -/
def send_to_new_fd (w : Relay) (sendRets : List Int) : Relay :=
  sendRets.foldl sendIter w

/-- A relay worker that starts `send_to_new_fd(new_fd)` with the given standard input;
`junk` is the indeterminate initial content of `message`. -/
def Relay.start (new_fd : Int) (junk stdin : List Nat) : Relay :=
  { new_fd := new_fd, message := junk, stdin := stdin, sent := [], diags := [] }

/-- The bytes handed to `send` in the pass that starts in state `w`. -/
def sentBuffer (w : Relay) : List Nat :=
  ((fgets (memset w.message 0 MESSAGE_SIZE) 100 w.stdin).1).take 100

/-- A list of bytes is one line of input in front of `rest`: no newline before its last
byte, and it ends with a newline unless the input ends with it. -/
def IsLine (L rest : List Nat) : Prop :=
  (∀ c ∈ L.dropLast, c ≠ NL) ∧ (L.getLast? = some NL ∨ rest = [])

instance (L rest : List Nat) : Decidable (IsLine L rest) := by
  unfold IsLine; infer_instance

/-- Zero padding of a chunk of bytes to the size of `message`. -/
def pad (chunk : List Nat) : List Nat :=
  chunk ++ List.replicate (MESSAGE_SIZE - chunk.length) 0

/-- The string "hello" as bytes. -/
def hello : List Nat := [104, 101, 108, 108, 111]

/-- A line of hundred bytes: ninety-nine letters and the newline. -/
def line100 : List Nat := List.replicate 99 97 ++ [NL]

/-- A line of hundred and one bytes: hundred letters and the newline. -/
def line101 : List Nat := List.replicate 100 97 ++ [NL]

/-! ## Workers that share the terminal

Every worker is a forked child and reads the standard input it inherited.  What was
typed at the terminal is a queue of lines; a `read` on the terminal hands one line to the
one process that made the call, and the line is then gone from the queue.  A worker whose
own input buffer is empty and that finds the queue empty stays blocked in `fgets`. -/

/-- The relay workers of one server together with the terminal they all read. -/
structure Fleet where
  /-- Lines entered at the terminal that no process has read yet. -/
  tty : List (List Nat)
  /-- The workers; the `stdin` of each is what its own input buffer holds. -/
  workers : List Relay
  deriving DecidableEq

/-- Worker number `i` is scheduled for one pass of its loop; its `send` returns `sendRet`.
With nothing to read the worker stays blocked and nothing changes. -/
def Fleet.step (f : Fleet) (i : Nat) (sendRet : Int) : Fleet :=
  match f.workers[i]? with
  | none => f
  | some w =>
    if w.stdin ≠ [] then { f with workers := f.workers.set i (sendIter w sendRet) }
    else
      match f.tty with
      | [] => f
      | l :: ls =>
        { tty := ls, workers := f.workers.set i (sendIter { w with stdin := l } sendRet) }

/-- The workers run under a schedule: a list of worker numbers, each with the result of
the `send` call of that pass. -/
def Fleet.run (f : Fleet) (sched : List (Nat × Int)) : Fleet :=
  sched.foldl (fun g e => g.step e.1 e.2) f

/-- No worker has anything to read: the terminal queue is empty and so is the input
buffer of every worker. -/
def Fleet.idle (f : Fleet) : Prop :=
  f.tty = [] ∧ ∀ w ∈ f.workers, w.stdin = []

/-- Two connected clients, on descriptors 4 and 5, and the line "hello" entered once. -/
def fleet2 : Fleet :=
  { tty := [hello ++ [NL]], workers := [Relay.start 4 [] [], Relay.start 5 [] []] }

/-! ## Descriptors -/

/-- The kernel object behind a socket descriptor. -/
inductive Resource where
  /-- The socket created for candidate number `cand` of the address list. -/
  | listener (cand : Nat)
  /-- The connection returned by successful `accept` number `k`. -/
  | conn (k : Nat)
  deriving DecidableEq

/-- The open socket descriptors of one process.  The three standard streams are not
sockets and are not listed. -/
abbrev FdTable := List (Int × Resource)

/-- `close(fd)`. -/
def closeFd (t : FdTable) (fd : Int) : FdTable :=
  t.filter (fun e => decide (e.1 ≠ fd))

/-! ## The bind loop of `main` -/

/-- One entry of the list `servinfo`, with the values the three calls made for it return
(`-1` is failure; `socketRet` is otherwise the new descriptor). -/
structure Candidate where
  socketRet : Int
  setsockoptRet : Int
  bindRet : Int
  deriving DecidableEq

/-- How the `for` loop over `servinfo` ends. -/
inductive BindExit where
  /-- The `break`: `p` points to candidate number `p`. -/
  | bound (p : Nat)
  /-- The list ran out: `p == NULL`. -/
  | exhausted
  /-- The `exit(1)` after a failed `setsockopt`, at candidate number `p`. -/
  | exitSetsockopt (p : Nat)
  deriving DecidableEq

/-- Variables and log of the bind loop. -/
structure BindState where
  sockfd : Int
  fds : FdTable
  /-- Numbers of the candidates for which `socket` was called, in call order. -/
  tried : List Nat
  diags : List Diag
  deriving DecidableEq

/-- The loop `for (p = servinfo; p != NULL; p = p->ai_next)`; `i` is the number of the
candidate at the head of the list. -/
def bindLoop : Nat → List Candidate → BindState → BindExit × BindState
  | _, [], st => (BindExit.exhausted, st)
  | i, c :: cs, st =>
    let st1 : BindState := { st with sockfd := c.socketRet, tried := st.tried ++ [i] }
    if c.socketRet = -1 then
      bindLoop (i + 1) cs { st1 with diags := st1.diags ++ [Diag.socket] }
    else
      let st2 : BindState := { st1 with fds := (st1.sockfd, Resource.listener i) :: st1.fds }
      if c.setsockoptRet = -1 then
        (BindExit.exitSetsockopt i, { st2 with diags := st2.diags ++ [Diag.setsockopt] })
      else if c.bindRet = -1 then
        bindLoop (i + 1) cs
          { st2 with fds := closeFd st2.fds st2.sockfd, diags := st2.diags ++ [Diag.bind] }
      else (BindExit.bound i, st2)

/-- The test `if (p == NULL)` behind the loop: when the list ran out, the diagnostic
"server: failed to bind" is written before the process exits. -/
def afterBindLoop (r : BindExit × BindState) : BindExit × BindState :=
  if r.1 = BindExit.exhausted then
    (r.1, { r.2 with diags := r.2.diags ++ [Diag.failedToBind] })
  else r

/-- The bind phase of `main`: the loop over the whole list, started with no socket open,
and the test behind it; `junk` is the indeterminate initial value of `sockfd`. -/
def bindPhase (cands : List Candidate) (junk : Int) : BindExit × BindState :=
  afterBindLoop (bindLoop 0 cands { sockfd := junk, fds := [], tried := [], diags := [] })

/-- The process leaves the bind phase through `exit(1)`: either at the failed
`setsockopt`, or at the test `p == NULL` behind the loop. -/
def BindExit.aborts : BindExit → Bool
  | BindExit.bound _ => false
  | BindExit.exhausted => true
  | BindExit.exitSetsockopt _ => true

/-- The candidate can be bound: its `socket` call and its `bind` call succeed. -/
def Candidate.bindable (c : Candidate) : Prop :=
  c.socketRet ≠ -1 ∧ c.bindRet ≠ -1

instance (c : Candidate) : Decidable c.bindable := by
  unfold Candidate.bindable; infer_instance

/-- The candidate fails in the way the loop skips: at `socket`, or at `bind` after a
successful `setsockopt`. -/
def Candidate.skipped (c : Candidate) : Prop :=
  c.socketRet = -1 ∨ (c.setsockoptRet ≠ -1 ∧ c.bindRet = -1)

instance (c : Candidate) : Decidable c.skipped := by
  unfold Candidate.skipped; infer_instance

/-! ## The accept loop of `main` -/

/-- What a process is doing. -/
inductive Role where
  /-- It runs the accept loop. -/
  | acceptor
  /-- It is inside `send_to_new_fd(new_fd)`. -/
  | relaying (new_fd : Int)
  deriving DecidableEq

/-- The part of a process image the accept loop works on. -/
structure Proc where
  sockfd : Int
  fds : FdTable
  role : Role
  diags : List Diag
  deriving DecidableEq

/-- What a `fork` call does. -/
inductive ForkOutcome where
  /-- No process is created. -/
  | failed
  /-- A child with the given process id is created. -/
  | created (pid : ℕ+)
  deriving DecidableEq

/-- The value `fork()` returns in the process that called it. -/
def ForkOutcome.inParent : ForkOutcome → Int
  | ForkOutcome.failed => -1
  | ForkOutcome.created pid => ((pid : Nat) : Int)

/-- The rest of the loop body behind `fork()`, in a process where the call returned `ret`:
`if (!fork()) { close(sockfd); send_to_new_fd(new_fd); .. }  close(new_fd);`. -/
def afterFork (pr : Proc) (new_fd : Int) (ret : Int) : Proc :=
  if ret = 0 then { pr with fds := closeFd pr.fds pr.sockfd, role := Role.relaying new_fd }
  else { pr with fds := closeFd pr.fds new_fd }

/-- What the environment does in one pass of the accept loop. -/
structure AcceptEvent where
  /-- The value `accept` returns. -/
  acceptRet : Int
  /-- What `fork` does, if the pass gets that far. -/
  fork : ForkOutcome
  deriving DecidableEq

/-- The server as a set of processes. -/
structure System where
  /-- The process that runs `main`. -/
  parent : Proc
  /-- The children created so far, oldest first. -/
  workers : List Proc
  /-- Number of successful `accept` calls so far. -/
  accepted : Nat
  /-- The descriptor passed to each `accept` call so far. -/
  acceptLog : List Int
  deriving DecidableEq

/-- One pass through the body of `while (1)` in `main`.  On success `accept` installs the
new descriptor in the caller; a created child starts as a copy of the caller in which
`fork` returned 0. -/
def acceptIter (s : System) (ev : AcceptEvent) : System :=
  let new_fd := ev.acceptRet
  let log := s.acceptLog ++ [s.parent.sockfd]
  if new_fd = -1 then
    { s with parent := { s.parent with diags := s.parent.diags ++ [Diag.accept] },
             acceptLog := log }
  else
    let pr : Proc := { s.parent with fds := (new_fd, Resource.conn s.accepted) :: s.parent.fds }
    let children : List Proc :=
      match ev.fork with
      | ForkOutcome.failed => []
      | ForkOutcome.created _ => [afterFork pr new_fd 0]
    { parent := afterFork pr new_fd ev.fork.inParent,
      workers := s.workers ++ children,
      accepted := s.accepted + 1,
      acceptLog := log }

/-- The accept loop, run for as many passes as there are events. -/
def acceptLoop (s : System) (evs : List AcceptEvent) : System :=
  evs.foldl acceptIter s

/-- The server on entry to the accept loop: the listening socket, created for candidate
number `p`, is the only open socket, and there is no child. -/
def System.atEntry (sockfd : Int) (p : Nat) : System :=
  { parent := { sockfd := sockfd, fds := [(sockfd, Resource.listener p)],
                role := Role.acceptor, diags := [] },
    workers := [], accepted := 0, acceptLog := [] }

/-- The pass gets a connection and a child for it. -/
def AcceptEvent.spawns (ev : AcceptEvent) : Bool :=
  decide (ev.acceptRet ≠ -1) && decide (ev.fork ≠ ForkOutcome.failed)

/-- What holds of the server at the start of every pass of the accept loop. -/
def Owned (sockfd : Int) (p : Nat) (s : System) : Prop :=
  s.parent.sockfd = sockfd ∧ s.parent.fds = [(sockfd, Resource.listener p)] ∧
    (∀ w ∈ s.workers, ∃ fd k, w.role = Role.relaying fd ∧ w.fds = [(fd, Resource.conn k)] ∧
      k < s.accepted) ∧
    (s.workers.map (fun w => w.fds)).Nodup

/-! ## The reaper: `sigchld_handler` -/

/-- A child process as the kernel sees it. -/
structure Child where
  pid : Int
  /-- The child has exited and has not been waited for. -/
  terminated : Bool
  deriving DecidableEq

/-- The option bit `WNOHANG`. -/
def WNOHANG : Nat := 1

/-- The error number `ECHILD`. -/
def ECHILD : Int := 10

/-- The kernel state the handler works on. -/
structure Kernel where
  children : List Child
  errno : Int
  /-- The options of each `waitpid(-1, NULL, options)` call made so far. -/
  waits : List Nat
  deriving DecidableEq

/-- Takes the first terminated child out of the table: its process id and the table
without it. -/
def reapFirst : List Child → Option (Int × List Child)
  | [] => none
  | c :: cs =>
    if c.terminated then some (c.pid, cs)
    else (reapFirst cs).map (fun r => (r.1, c :: r.2))

/-- Result of a `waitpid` call. -/
inductive WaitResult where
  | returned (ret : Int) (k : Kernel)
  /-- The caller sleeps until a child terminates. -/
  | blocked
  deriving DecidableEq

/-- `waitpid(-1, NULL, options)`: a terminated child is reclaimed and its process id
returned; without children the call fails with `ECHILD`; with children that all still run
it returns 0 under `WNOHANG` and blocks otherwise. -/
def waitpidAny (k : Kernel) (options : Nat) : WaitResult :=
  let k1 : Kernel := { k with waits := k.waits ++ [options] }
  match reapFirst k.children with
  | some r => WaitResult.returned r.1 { k1 with children := r.2 }
  | none =>
    if k.children = [] then WaitResult.returned (-1) { k1 with errno := ECHILD }
    else if options &&& WNOHANG ≠ 0 then WaitResult.returned 0 k1
    else WaitResult.blocked

/-- How a run of the handler ends. -/
inductive HandlerResult where
  | done (k : Kernel)
  | blocked
  | outOfFuel
  deriving DecidableEq

/-- The loop `while (waitpid(-1, NULL, WNOHANG) > 0);`, for at most `fuel` calls. -/
def reapLoop : Nat → Kernel → HandlerResult
  | 0, _ => HandlerResult.outOfFuel
  | fuel + 1, k =>
    match waitpidAny k WNOHANG with
    | WaitResult.blocked => HandlerResult.blocked
    | WaitResult.returned ret k1 =>
      if ret > 0 then reapLoop fuel k1 else HandlerResult.done k1

/-- `sigchld_handler`: `errno` is saved, the loop runs, `errno` is restored. -/
def sigchld_handler (fuel : Nat) (k : Kernel) : HandlerResult :=
  let saved_errno := k.errno
  match reapLoop fuel k with
  | HandlerResult.done k1 => HandlerResult.done { k1 with errno := saved_errno }
  | r => r

/-- Number of terminated children that have not been reclaimed. -/
def zombies (cs : List Child) : Nat :=
  (cs.filter (fun c => c.terminated)).length

/-! ## Facts about the relay worker -/

theorem fgetsChars_length_le (k : Nat) (s : List Nat) : (fgetsChars k s).1.length ≤ k := by
  induction k generalizing s with
  | zero => simp [fgetsChars]
  | succ k ih =>
    cases s with
    | nil => simp [fgetsChars]
    | cons c s =>
      by_cases hc : c = NL
      · simp [fgetsChars, hc]
      · simpa [fgetsChars, hc] using ih s

theorem isLine_nil {rest : List Nat} (h : IsLine [] rest) : rest = [] := by
  rcases h with ⟨-, h⟩
  simpa using h

theorem isLine_tail {c : Nat} {L rest : List Nat} (hc : c ≠ NL) (h : IsLine (c :: L) rest) :
    IsLine L rest := by
  rcases h with ⟨h1, h2⟩
  cases L with
  | nil =>
    refine ⟨by simp, ?_⟩
    rcases h2 with h2 | h2
    · exact absurd (by simpa using h2) hc
    · exact Or.inr h2
  | cons d L =>
    refine ⟨fun x hx => h1 x ?_, ?_⟩
    · simp only [List.dropLast_cons₂, List.mem_cons]
      exact Or.inr hx
    · simpa [List.getLast?_cons_cons] using h2

theorem isLine_newline_head {L rest : List Nat} (h : IsLine (NL :: L) rest) : L = [] := by
  cases L with
  | nil => rfl
  | cons d L => exact absurd rfl (h.1 NL (by simp))

theorem isLine_drop {L rest : List Nat} (h : IsLine L rest) (k : Nat) (hk : k < L.length) :
    IsLine (L.drop k) rest := by
  induction k generalizing L with
  | zero => simpa using h
  | succ k ih =>
    cases L with
    | nil => simp at hk
    | cons c L =>
      have hk2 : k < L.length := by simpa using hk
      by_cases hc : c = NL
      · subst hc
        have := isLine_newline_head h
        subst this
        simp at hk2
      · simpa using ih (isLine_tail hc h) hk2

/-- On a stream that starts with a line, `fgets` takes the first `k` bytes of the line and
leaves the remainder of the line in the stream. -/
theorem fgetsChars_line (k : Nat) (L rest : List Nat) (h : IsLine L rest) :
    fgetsChars k (L ++ rest) = (L.take k, L.drop k ++ rest) := by
  induction k generalizing L with
  | zero => simp [fgetsChars]
  | succ k ih =>
    cases L with
    | nil =>
      have := isLine_nil h
      subst this
      simp [fgetsChars]
    | cons c L =>
      by_cases hc : c = NL
      · subst hc
        have := isLine_newline_head h
        subst this
        simp [fgetsChars]
      · have := ih L (isLine_tail hc h)
        simp [fgetsChars, hc, this]

/-- The array handed to `send` is the characters `fgets` took, padded with zeros. -/
theorem sentBuffer_eq (w : Relay) : sentBuffer w = pad (fgetsChars 99 w.stdin).1 := by
  have hlen := fgetsChars_length_le 99 w.stdin
  unfold sentBuffer fgets
  by_cases hs : w.stdin = []
  · simp [hs, memset, pad, fgetsChars, MESSAGE_SIZE, List.take_append_eq_append_take]
  · simp only [hs, if_false, pad, memset, MESSAGE_SIZE]
    show List.take 100 ((fgetsChars 99 w.stdin).1 ++ [0] ++
        List.drop ((fgetsChars 99 w.stdin).1.length + 1) (List.replicate 100 0 ++ List.drop 100 w.message))
      = (fgetsChars 99 w.stdin).1 ++ List.replicate (100 - (fgetsChars 99 w.stdin).1.length) 0
    generalize (fgetsChars 99 w.stdin).1 = cs at hlen
    have h1 : List.drop (cs.length + 1) (List.replicate 100 0 ++ List.drop 100 w.message)
        = List.replicate (99 - cs.length) 0 ++ List.drop 100 w.message := by
      rw [List.drop_append_of_le_length (by simp; omega), List.drop_replicate]
      congr 2
      omega
    have h2 : cs ++ List.replicate (100 - cs.length) 0
        = cs ++ [0] ++ List.replicate (99 - cs.length) 0 := by
      have : 100 - cs.length = (99 - cs.length) + 1 := by omega
      rw [this, List.replicate_succ]
      simp
    rw [h1, h2, ← List.append_assoc]
    exact List.take_left' (by simp; omega)

theorem sendIter_sent (w : Relay) (r : Int) :
    (sendIter w r).sent = w.sent ++ [(w.new_fd, sentBuffer w)] := by
  unfold sendIter sentBuffer
  by_cases hr : r = -1 <;> simp [hr]

theorem sendIter_new_fd (w : Relay) (r : Int) : (sendIter w r).new_fd = w.new_fd := by
  unfold sendIter
  by_cases hr : r = -1 <;> simp [hr]

theorem sendIter_stdin (w : Relay) (r : Int) :
    (sendIter w r).stdin = (fgetsChars 99 w.stdin).2 := by
  unfold sendIter fgets
  by_cases hr : r = -1 <;> by_cases hs : w.stdin = [] <;> simp [hr, hs, fgetsChars]

/-- One pass on an input that starts with a line: the first 99 bytes of the line are sent,
zero padded, and the rest of the line stays in the input. -/
theorem sendIter_line (w : Relay) (r : Int) (L rest : List Nat) (h : IsLine L rest)
    (hw : w.stdin = L ++ rest) :
    (sendIter w r).sent = w.sent ++ [(w.new_fd, pad (L.take 99))] ∧
      (sendIter w r).stdin = L.drop 99 ++ rest := by
  rw [sendIter_sent, sendIter_stdin, sentBuffer_eq, hw, fgetsChars_line 99 L rest h]
  exact ⟨rfl, rfl⟩

/-- Several passes on a line: pass number `i` sends bytes `99 * i` and following. -/
theorem send_to_new_fd_line (rets : List Int) (w : Relay) (L rest : List Nat)
    (h : IsLine L rest) (hw : w.stdin = L ++ rest) (hn : 99 * rets.length < L.length + 99) :
    (send_to_new_fd w rets).sent
        = w.sent ++ (List.range rets.length).map
            (fun i => (w.new_fd, pad ((L.drop (99 * i)).take 99))) ∧
      (send_to_new_fd w rets).stdin = L.drop (99 * rets.length) ++ rest := by
  induction rets generalizing w L with
  | nil => simp [send_to_new_fd, hw]
  | cons r rs ih =>
    obtain ⟨h1, h2⟩ := sendIter_line w r L rest h hw
    have hstep : send_to_new_fd w (r :: rs) = send_to_new_fd (sendIter w r) rs := rfl
    rw [hstep]
    cases rs with
    | nil => simp [send_to_new_fd, h1, h2, List.range_succ]
    | cons r2 rs2 =>
      have hlen : 99 < L.length := by
        simp only [List.length_cons] at hn
        omega
      have hL2 : IsLine (L.drop 99) rest := isLine_drop h 99 hlen
      have hn2 : 99 * (r2 :: rs2).length < (L.drop 99).length + 99 := by
        simp only [List.length_cons, List.length_drop] at hn ⊢
        omega
      obtain ⟨g1, g2⟩ := ih (sendIter w r) (L.drop 99) hL2 h2 hn2
      rw [g1, g2, h1, sendIter_new_fd]
      refine ⟨?_, ?_⟩
      · have hl : (r :: r2 :: rs2).length = (r2 :: rs2).length + 1 := rfl
        rw [hl, List.range_succ_eq_map (r2 :: rs2).length]
        simp only [List.map_cons, List.map_map, List.append_assoc, List.singleton_append,
          Nat.mul_zero, List.drop_zero]
        congr 2
        apply List.map_congr_left
        intro i _
        simp only [Function.comp, List.drop_drop]
        have e1 : 99 + 99 * i = 99 * i.succ := by omega
        rw [e1]
      · rw [List.drop_drop]
        have hl : 99 + 99 * (r2 :: rs2).length = 99 * (r :: r2 :: rs2).length := by
          simp only [List.length_cons]
          omega
        rw [hl]

/-! ## The relay worker: claims -/

/-- C1 (as stated, refuted): for the line of ninety-nine letters and a newline, hundred
bytes in all, the array handed to `send` is not the first hundred bytes of the line: its
last byte is zero, not the newline. -/
theorem C1_counterexample :
    IsLine line100 [] ∧
      (sendIter (Relay.start 4 [] line100) 100).sent ≠ [(4, pad (line100.take 100))] ∧
      (sendIter (Relay.start 4 [] line100) 100).sent = [(4, List.replicate 99 97 ++ [0])] := by
  decide

/-- C1 (amended): for every line `L` at the head of standard input when a pass of
`send_to_new_fd` starts (the line includes its newline, if it has one), that pass makes
one `send` call on `new_fd`, and the array handed over is exactly 100 bytes long and
consists of the first 99 bytes of `L` followed by zero bytes up to length 100. -/
theorem C1_sent_buffer_first_99_bytes_zero_padded (w : Relay) (L rest : List Nat)
    (sendRet : Int) (h : IsLine L rest) (hw : w.stdin = L ++ rest) :
    (sendIter w sendRet).sent
        = w.sent ++ [(w.new_fd, L.take 99 ++ List.replicate (100 - (L.take 99).length) 0)] ∧
      (L.take 99 ++ List.replicate (100 - (L.take 99).length) 0).length = 100 := by
  refine ⟨?_, ?_⟩
  · exact (sendIter_line w sendRet L rest h hw).1
  · simp only [List.length_append, List.length_replicate, List.length_take]
    omega

/-- C1 (amended), at the line "hello": the array is "hello", the newline, and 94 zero
bytes. -/
theorem C1_sent_buffer_hello :
    (sendIter (Relay.start 4 [] (hello ++ [NL])) 100).sent
        = [] ++ [(4, hello ++ [NL] ++ List.replicate 94 0)] ∧
      (hello ++ [NL] ++ List.replicate 94 0).length = 100 :=
  C1_sent_buffer_first_99_bytes_zero_padded (Relay.start 4 [] (hello ++ [NL]))
    (hello ++ [NL]) [] 100 (by decide) (by decide)

/-- C9 (as stated, refuted): a line of hundred letters and a newline is not sent in one
array with its tail thrown away: two passes send two arrays, and the second one carries
the last letter and the newline of the line. -/
theorem C9_counterexample :
    IsLine line101 [] ∧
      (sendIter (Relay.start 4 [] line101) 100).stdin = [97, NL] ∧
      (send_to_new_fd (Relay.start 4 [] line101) [100, 100]).sent
        = [(4, List.replicate 99 97 ++ [0]), (4, [97, NL] ++ List.replicate 98 0)] := by
  decide

/-- C9 (amended): every pass makes exactly one `send` of one 100-byte array; a line longer
than 99 bytes is split, not truncated: as long as the passes are reading the line `L`,
pass number `i` sends bytes `99 * i` to `99 * i + 98` of `L`, zero padded, and the bytes
of `L` not yet sent stay at the head of standard input. -/
theorem C9_long_line_is_split_across_sends (w : Relay) (L rest : List Nat)
    (sendRets : List Int) (h : IsLine L rest) (hw : w.stdin = L ++ rest)
    (hn : 99 * sendRets.length < L.length + 99) :
    (send_to_new_fd w sendRets).sent
        = w.sent ++ (List.range sendRets.length).map
            (fun i => (w.new_fd, pad ((L.drop (99 * i)).take 99))) ∧
      (send_to_new_fd w sendRets).stdin = L.drop (99 * sendRets.length) ++ rest :=
  send_to_new_fd_line sendRets w L rest h hw hn

/-- C9 (amended), at the line of hundred letters followed by the line "hello": the first
pass sends ninety-nine letters, the second the last letter and the newline, and the line
"hello" is still to be read. -/
theorem C9_long_line_is_split_witness :
    (send_to_new_fd (Relay.start 4 [] (line101 ++ (hello ++ [NL]))) [100, -1]).sent
        = [] ++ (List.range 2).map
            (fun i => ((4 : Int), pad ((line101.drop (99 * i)).take 99))) ∧
      (send_to_new_fd (Relay.start 4 [] (line101 ++ (hello ++ [NL]))) [100, -1]).stdin
        = line101.drop (99 * 2) ++ (hello ++ [NL]) :=
  C9_long_line_is_split_across_sends (Relay.start 4 [] (line101 ++ (hello ++ [NL])))
    line101 (hello ++ [NL]) [100, -1] (by decide) rfl (by decide)

/-- C5 (the code at the failing input): the first `send` fails, the worker writes the
diagnostic and goes on: the second pass reads the next line and calls `send` again on
the same descriptor. -/
theorem C5_send_failure_does_not_stop_the_worker :
    (send_to_new_fd (Relay.start 4 [] (hello ++ [NL] ++ [97, NL])) [-1, 100]).diags
        = [Diag.send] ∧
      (send_to_new_fd (Relay.start 4 [] (hello ++ [NL] ++ [97, NL])) [-1, 100]).sent
        = [(4, hello ++ [NL] ++ List.replicate 94 0), (4, [97, NL] ++ List.replicate 98 0)] := by
  decide

/-! ## The bind loop: facts -/

/-- A skipped candidate leaves no socket open and only adds itself to the candidates
tried. -/
theorem bindLoop_skip (i : Nat) (c : Candidate) (cs : List Candidate) (st : BindState)
    (hc : c.skipped) (hfds : st.fds = []) :
    ∃ st2 : BindState, bindLoop i (c :: cs) st = bindLoop (i + 1) cs st2 ∧
      st2.fds = [] ∧ st2.tried = st.tried ++ [i] := by
  by_cases hs : c.socketRet = -1
  · exact ⟨{ sockfd := c.socketRet, fds := st.fds, tried := st.tried ++ [i],
             diags := st.diags ++ [Diag.socket] }, by simp [bindLoop, hs], hfds, rfl⟩
  · rcases hc with hc | ⟨ho, hb⟩
    · exact absurd hc hs
    · refine ⟨{ sockfd := c.socketRet,
                fds := closeFd ((c.socketRet, Resource.listener i) :: st.fds) c.socketRet,
                tried := st.tried ++ [i], diags := st.diags ++ [Diag.bind] },
              by simp only [bindLoop, hs, ho, hb, if_true, if_false], ?_, rfl⟩
      simp [hfds, closeFd]

/-- A run of skipped candidates at the head of the list. -/
theorem bindLoop_skip_all (pre : List Candidate) (i : Nat) (rest : List Candidate)
    (st : BindState) (hpre : ∀ d ∈ pre, d.skipped) (hfds : st.fds = []) :
    ∃ st2 : BindState, bindLoop i (pre ++ rest) st = bindLoop (i + pre.length) rest st2 ∧
      st2.fds = [] ∧ st2.tried = st.tried ++ List.range' i pre.length := by
  induction pre generalizing i st with
  | nil => exact ⟨st, by simp, hfds, by simp⟩
  | cons d ds ih =>
    obtain ⟨st1, e1, f1, t1⟩ :=
      bindLoop_skip i d (ds ++ rest) st (hpre d (by simp)) hfds
    obtain ⟨st2, e2, f2, t2⟩ :=
      ih (i + 1) st1 (fun x hx => hpre x (by simp [hx])) f1
    refine ⟨st2, ?_, f2, ?_⟩
    · rw [List.cons_append, e1, e2]
      congr 1
      simp only [List.length_cons]
      omega
    · rw [t2, t1, List.append_assoc]
      rfl

/-- Every list is all skipped candidates, or has a first candidate that is not. -/
theorem skipped_or_first (cands : List Candidate) :
    (∀ c ∈ cands, c.skipped) ∨
      ∃ pre c post, cands = pre ++ c :: post ∧ (∀ d ∈ pre, d.skipped) ∧ ¬ c.skipped := by
  induction cands with
  | nil => exact Or.inl (by simp)
  | cons c cs ih =>
    by_cases hc : c.skipped
    · rcases ih with h | ⟨pre, d, post, e, hp, hd⟩
      · exact Or.inl (by
          intro x hx
          rcases List.mem_cons.1 hx with rfl | hx
          · exact hc
          · exact h x hx)
      · refine Or.inr ⟨c :: pre, d, post, by simp [e], ?_, hd⟩
        intro x hx
        rcases List.mem_cons.1 hx with rfl | hx
        · exact hc
        · exact hp x hx
    · exact Or.inr ⟨[], c, cs, rfl, by simp, hc⟩

theorem bindPhase_all_skipped (cands : List Candidate) (junk : Int)
    (h : ∀ c ∈ cands, c.skipped) : (bindPhase cands junk).1 = BindExit.exhausted := by
  obtain ⟨st2, e, -, -⟩ := bindLoop_skip_all cands 0 []
    { sockfd := junk, fds := [], tried := [], diags := [] } h rfl
  unfold bindPhase
  rw [List.append_nil] at e
  rw [e]
  rfl

theorem bindPhase_setsockopt_fails (pre post : List Candidate) (c : Candidate) (junk : Int)
    (hpre : ∀ d ∈ pre, d.skipped) (hs : c.socketRet ≠ -1) (ho : c.setsockoptRet = -1) :
    (bindPhase (pre ++ c :: post) junk).1 = BindExit.exitSetsockopt pre.length ∧
      (bindPhase (pre ++ c :: post) junk).2.tried = List.range (pre.length + 1) := by
  obtain ⟨st2, e, -, t⟩ := bindLoop_skip_all pre 0 (c :: post)
    { sockfd := junk, fds := [], tried := [], diags := [] } hpre rfl
  unfold bindPhase
  rw [e]
  simp only [bindLoop, afterBindLoop, hs, ho, if_true, if_false, Nat.zero_add, t,
    List.nil_append, true_and, reduceCtorEq]
  rw [List.range_eq_range', List.range'_concat]
  simp

theorem bindPhase_binds (pre post : List Candidate) (c : Candidate) (junk : Int)
    (hpre : ∀ d ∈ pre, d.skipped) (hs : c.socketRet ≠ -1) (ho : c.setsockoptRet ≠ -1)
    (hb : c.bindRet ≠ -1) :
    (bindPhase (pre ++ c :: post) junk).1 = BindExit.bound pre.length ∧
      (bindPhase (pre ++ c :: post) junk).2.sockfd = c.socketRet ∧
      (bindPhase (pre ++ c :: post) junk).2.fds
        = [(c.socketRet, Resource.listener pre.length)] ∧
      (bindPhase (pre ++ c :: post) junk).2.tried = List.range (pre.length + 1) := by
  obtain ⟨st2, e, f, t⟩ := bindLoop_skip_all pre 0 (c :: post)
    { sockfd := junk, fds := [], tried := [], diags := [] } hpre rfl
  unfold bindPhase
  rw [e]
  simp only [bindLoop, afterBindLoop, hs, ho, hb, if_false, Nat.zero_add, t, f,
    List.nil_append, true_and, reduceCtorEq]
  rw [List.range_eq_range', List.range'_concat]
  simp

theorem not_skipped_cases {c : Candidate} (h : ¬ c.skipped) :
    c.socketRet ≠ -1 ∧ (c.setsockoptRet = -1 ∨ c.bindRet ≠ -1) := by
  unfold Candidate.skipped at h
  push_neg at h
  refine ⟨h.1, ?_⟩
  by_cases ho : c.setsockoptRet = -1
  · exact Or.inl ho
  · exact Or.inr (h.2 ho)

/-! ## The bind loop: claims -/

/-- C2 (as stated, refuted): the second candidate is the first one for which `socket` and
`bind` both succeed, yet the loop does not stop at it: `setsockopt` fails on the first
candidate, the process exits there, and the second candidate is never tried. -/
theorem C2_counterexample :
    ¬ (⟨3, -1, -1⟩ : Candidate).bindable ∧ (⟨4, 0, 0⟩ : Candidate).bindable ∧
      (bindPhase [⟨3, -1, -1⟩, ⟨4, 0, 0⟩] 0).1 ≠ BindExit.bound 1 ∧
      (bindPhase [⟨3, -1, -1⟩, ⟨4, 0, 0⟩] 0).1 = BindExit.exitSetsockopt 0 ∧
      (bindPhase [⟨3, -1, -1⟩, ⟨4, 0, 0⟩] 0).2.tried = [0] := by
  decide

/-- C2 (amended): let `c` be the first candidate of the list for which `socket` and `bind`
both succeed, and let no `setsockopt` call fail on `c` or on a candidate before it.  Then
the loop tries the candidates in list order up to `c` and stops there with `break`: the
listening socket `sockfd` is the descriptor created for `c`, it is the only socket left
open, and no candidate behind `c` is tried. -/
theorem C2_stops_at_first_bindable_candidate (pre post : List Candidate) (c : Candidate)
    (junk : Int) (hc : c.bindable) (hfirst : ∀ d ∈ pre, ¬ d.bindable)
    (hopt : ∀ d ∈ pre ++ [c], d.socketRet ≠ -1 → d.setsockoptRet ≠ -1) :
    (bindPhase (pre ++ c :: post) junk).1 = BindExit.bound pre.length ∧
      (bindPhase (pre ++ c :: post) junk).2.sockfd = c.socketRet ∧
      (bindPhase (pre ++ c :: post) junk).2.fds
        = [(c.socketRet, Resource.listener pre.length)] ∧
      (bindPhase (pre ++ c :: post) junk).2.tried = List.range (pre.length + 1) := by
  have hpre : ∀ d ∈ pre, d.skipped := by
    intro d hd
    by_cases hs : d.socketRet = -1
    · exact Or.inl hs
    · refine Or.inr ⟨hopt d (by simp [hd]) hs, ?_⟩
      by_contra hb
      exact hfirst d hd ⟨hs, hb⟩
  exact bindPhase_binds pre post c junk hpre hc.1 (hopt c (by simp) hc.1) hc.2

/-- C2 (amended), at a list of four candidates: `socket` fails on the first, `bind` fails
on the second, the third can be bound. -/
theorem C2_stops_at_first_bindable_candidate_witness :
    (bindPhase ([⟨-1, 0, 0⟩, ⟨3, 0, -1⟩] ++ ⟨3, 0, 0⟩ :: [⟨4, -1, 0⟩]) 7).1
        = BindExit.bound [(⟨-1, 0, 0⟩ : Candidate), ⟨3, 0, -1⟩].length ∧
      (bindPhase ([⟨-1, 0, 0⟩, ⟨3, 0, -1⟩] ++ ⟨3, 0, 0⟩ :: [⟨4, -1, 0⟩]) 7).2.sockfd
        = (⟨3, 0, 0⟩ : Candidate).socketRet ∧
      (bindPhase ([⟨-1, 0, 0⟩, ⟨3, 0, -1⟩] ++ ⟨3, 0, 0⟩ :: [⟨4, -1, 0⟩]) 7).2.fds
        = [((⟨3, 0, 0⟩ : Candidate).socketRet,
            Resource.listener [(⟨-1, 0, 0⟩ : Candidate), ⟨3, 0, -1⟩].length)] ∧
      (bindPhase ([⟨-1, 0, 0⟩, ⟨3, 0, -1⟩] ++ ⟨3, 0, 0⟩ :: [⟨4, -1, 0⟩]) 7).2.tried
        = List.range ([(⟨-1, 0, 0⟩ : Candidate), ⟨3, 0, -1⟩].length + 1) :=
  C2_stops_at_first_bindable_candidate [⟨-1, 0, 0⟩, ⟨3, 0, -1⟩] [⟨4, -1, 0⟩] ⟨3, 0, 0⟩ 7
    (by decide) (by decide) (by decide)

/-- C3 (as stated, refuted): the third candidate can be bound and its `setsockopt`
succeeds, yet startup aborts in the bind phase: the failed `setsockopt` on the second
candidate is fatal by itself. -/
theorem C3_counterexample :
    (⟨6, 0, 0⟩ : Candidate) ∈ [(⟨-1, 0, 0⟩ : Candidate), ⟨5, -1, 0⟩, ⟨6, 0, 0⟩] ∧
      (⟨6, 0, 0⟩ : Candidate).bindable ∧
      (bindPhase [⟨-1, 0, 0⟩, ⟨5, -1, 0⟩, ⟨6, 0, 0⟩] 0).1.aborts = true ∧
      (bindPhase [⟨-1, 0, 0⟩, ⟨5, -1, 0⟩, ⟨6, 0, 0⟩] 0).1 = BindExit.exitSetsockopt 1 := by
  decide

/-- C3 (amended): for every list of candidates and every outcome of the calls, startup
aborts in the bind phase exactly when every candidate fails at `socket` or at `bind` (such
a candidate is skipped, it is not fatal by itself), or when a `setsockopt` call fails on a
candidate that is reached, which is fatal by itself.  So when no `setsockopt` call fails,
the bind phase succeeds if and only if at least one candidate can be bound. -/
theorem C3_bind_phase_aborts_iff (cands : List Candidate) (junk : Int) :
    ((bindPhase cands junk).1.aborts = true ↔
        ((∀ c ∈ cands, c.skipped) ∨
          ∃ pre c post, cands = pre ++ c :: post ∧ (∀ d ∈ pre, d.skipped) ∧
            c.socketRet ≠ -1 ∧ c.setsockoptRet = -1)) ∧
      ((∀ c ∈ cands, c.socketRet ≠ -1 → c.setsockoptRet ≠ -1) →
        ((bindPhase cands junk).1.aborts = false ↔ ∃ c ∈ cands, c.bindable)) := by
  refine ⟨⟨?_, ?_⟩, ?_⟩
  · intro hab
    rcases skipped_or_first cands with h | ⟨pre, c, post, e, hp, hc⟩
    · exact Or.inl h
    · obtain ⟨hs, ho | hb⟩ := not_skipped_cases hc
      · exact Or.inr ⟨pre, c, post, e, hp, hs, ho⟩
      · by_cases ho : c.setsockoptRet = -1
        · exact Or.inr ⟨pre, c, post, e, hp, hs, ho⟩
        · have := (bindPhase_binds pre post c junk hp hs ho hb).1
          rw [e, this] at hab
          simp [BindExit.aborts] at hab
  · rintro (h | ⟨pre, c, post, e, hp, hs, ho⟩)
    · rw [bindPhase_all_skipped cands junk h]
      rfl
    · rw [e, (bindPhase_setsockopt_fails pre post c junk hp hs ho).1]
      rfl
  · intro hopt
    constructor
    · intro hab
      rcases skipped_or_first cands with h | ⟨pre, c, post, e, hp, hc⟩
      · rw [bindPhase_all_skipped cands junk h] at hab
        simp [BindExit.aborts] at hab
      · obtain ⟨hs, ho | hb⟩ := not_skipped_cases hc
        · exact absurd ho (hopt c (by simp [e]) hs)
        · exact ⟨c, by simp [e], hs, hb⟩
    · rintro ⟨c0, hmem, hs0, hb0⟩
      rcases skipped_or_first cands with h | ⟨pre, c, post, e, hp, hc⟩
      · rcases h c0 hmem with h1 | ⟨-, h2⟩
        · exact absurd h1 hs0
        · exact absurd h2 hb0
      · obtain ⟨hs, ho | hb⟩ := not_skipped_cases hc
        · exact absurd ho (hopt c (by simp [e]) hs)
        · rw [e, (bindPhase_binds pre post c junk hp hs (hopt c (by simp [e]) hs) hb).1]
          rfl

/-- C3 (amended), at a list where `socket` fails on the first candidate, `bind` on the
second, and the third can be bound: the bind phase does not abort. -/
theorem C3_bind_phase_aborts_iff_witness :
    (bindPhase [⟨-1, 0, 0⟩, ⟨3, 0, -1⟩, ⟨3, 0, 0⟩] 0).1.aborts = false ↔
      ∃ c ∈ [(⟨-1, 0, 0⟩ : Candidate), ⟨3, 0, -1⟩, ⟨3, 0, 0⟩], c.bindable :=
  (C3_bind_phase_aborts_iff [⟨-1, 0, 0⟩, ⟨3, 0, -1⟩, ⟨3, 0, 0⟩] 0).2 (by decide)

/-! ## The accept loop: facts -/

theorem inParent_ne_zero (o : ForkOutcome) : o.inParent ≠ 0 := by
  cases o with
  | failed => simp [ForkOutcome.inParent]
  | created pid =>
    simp only [ForkOutcome.inParent, ne_eq, Int.natCast_eq_zero]
    exact pid.ne_zero

theorem acceptLoop_cons (s : System) (ev : AcceptEvent) (evs : List AcceptEvent) :
    acceptLoop s (ev :: evs) = acceptLoop (acceptIter s ev) evs := rfl

theorem acceptIter_parent_of_ok (s : System) (ev : AcceptEvent) (h : ev.acceptRet ≠ -1) :
    (acceptIter s ev).parent
      = { s.parent with
          fds := closeFd ((ev.acceptRet, Resource.conn s.accepted) :: s.parent.fds)
            ev.acceptRet } := by
  simp [acceptIter, h, afterFork, inParent_ne_zero]

theorem acceptIter_workers_of_ok (s : System) (ev : AcceptEvent) (h : ev.acceptRet ≠ -1) :
    (acceptIter s ev).workers
      = s.workers ++
          (if ev.fork = ForkOutcome.failed then []
           else [{ s.parent with
                   fds := closeFd ((ev.acceptRet, Resource.conn s.accepted) :: s.parent.fds)
                     s.parent.sockfd,
                   role := Role.relaying ev.acceptRet }]) := by
  cases hf : ev.fork <;> simp [acceptIter, h, afterFork, hf]

theorem acceptIter_accepted_of_ok (s : System) (ev : AcceptEvent) (h : ev.acceptRet ≠ -1) :
    (acceptIter s ev).accepted = s.accepted + 1 := by
  simp [acceptIter, h]

theorem acceptIter_of_fail (s : System) (ev : AcceptEvent) (h : ev.acceptRet = -1) :
    acceptIter s ev
      = { s with parent := { s.parent with diags := s.parent.diags ++ [Diag.accept] },
                 acceptLog := s.acceptLog ++ [s.parent.sockfd] } := by
  simp [acceptIter, h]

theorem acceptIter_acceptLog (s : System) (ev : AcceptEvent) :
    (acceptIter s ev).acceptLog = s.acceptLog ++ [s.parent.sockfd] := by
  by_cases h : ev.acceptRet = -1 <;> simp [acceptIter, h]

theorem owned_acceptIter (sockfd : Int) (p : Nat) (s : System) (ev : AcceptEvent)
    (hs : Owned sockfd p s) (hfresh : ev.acceptRet ≠ sockfd) :
    Owned sockfd p (acceptIter s ev) := by
  obtain ⟨h1, h2, h3, h4⟩ := hs
  by_cases h : ev.acceptRet = -1
  · rw [acceptIter_of_fail s ev h]
    exact ⟨h1, h2, h3, h4⟩
  · have hne : sockfd ≠ ev.acceptRet := fun e => hfresh e.symm
    refine ⟨?_, ?_, ?_, ?_⟩
    · rw [acceptIter_parent_of_ok s ev h]
      exact h1
    · rw [acceptIter_parent_of_ok s ev h]
      simp [h2, closeFd, hne]
    · rw [acceptIter_workers_of_ok s ev h, acceptIter_accepted_of_ok s ev h]
      intro w hw
      rcases List.mem_append.1 hw with hw | hw
      · obtain ⟨fd, k, a, b, c⟩ := h3 w hw
        exact ⟨fd, k, a, b, by omega⟩
      · by_cases hf : ev.fork = ForkOutcome.failed
        · simp [hf] at hw
        · simp only [hf, if_false, List.mem_singleton] at hw
          subst hw
          refine ⟨ev.acceptRet, s.accepted, rfl, ?_, by omega⟩
          simp [h1, h2, closeFd, hfresh]
    · rw [acceptIter_workers_of_ok s ev h]
      by_cases hf : ev.fork = ForkOutcome.failed
      · simpa [hf] using h4
      · simp only [hf, if_false, List.map_append, List.map_cons, List.map_nil]
        rw [List.nodup_append]
        refine ⟨h4, by simp, ?_⟩
        intro t ht ht2
        simp only [List.mem_singleton] at ht2
        obtain ⟨w, hw, rfl⟩ := List.mem_map.1 ht
        obtain ⟨fd, k, -, b, c⟩ := h3 w hw
        rw [b] at ht2
        simp [h1, h2, closeFd, hfresh] at ht2
        omega

theorem owned_acceptLoop (sockfd : Int) (p : Nat) (evs : List AcceptEvent) (s : System)
    (hs : Owned sockfd p s) (hfresh : ∀ ev ∈ evs, ev.acceptRet ≠ sockfd) :
    Owned sockfd p (acceptLoop s evs) := by
  induction evs generalizing s with
  | nil => exact hs
  | cons ev evs ih =>
    rw [acceptLoop_cons]
    exact ih _ (owned_acceptIter sockfd p s ev hs (hfresh ev (by simp)))
      (fun e he => hfresh e (by simp [he]))

theorem owned_atEntry (sockfd : Int) (p : Nat) : Owned sockfd p (System.atEntry sockfd p) := by
  refine ⟨rfl, rfl, ?_, ?_⟩ <;> simp [System.atEntry]

theorem acceptLoop_workers (evs : List AcceptEvent) (s : System) :
    (acceptLoop s evs).workers.map (fun w => w.role)
        = s.workers.map (fun w => w.role) ++
          (evs.filter AcceptEvent.spawns).map (fun ev => Role.relaying ev.acceptRet) ∧
      (acceptLoop s evs).accepted
        = s.accepted + (evs.filter (fun ev => decide (ev.acceptRet ≠ -1))).length := by
  induction evs generalizing s with
  | nil => simp [acceptLoop]
  | cons ev evs ih =>
    rw [acceptLoop_cons]
    obtain ⟨g1, g2⟩ := ih (acceptIter s ev)
    rw [g1, g2]
    by_cases h : ev.acceptRet = -1
    · rw [acceptIter_of_fail s ev h]
      simp [AcceptEvent.spawns, h]
    · rw [acceptIter_workers_of_ok s ev h, acceptIter_accepted_of_ok s ev h]
      by_cases hf : ev.fork = ForkOutcome.failed
      · simp [AcceptEvent.spawns, h, hf]
        omega
      · simp [AcceptEvent.spawns, h, hf]
        omega

/-! ## The accept loop: claims -/

/-- C4: a pass of the accept loop whose `accept` call returns -1 only writes the
diagnostic: no worker is added, the descriptors of the process, the listening socket and
the count of accepted connections are unchanged, the process is still in the accept loop,
and the loop goes on with the next pass, whose `accept` call is made on the same
listening socket. -/
theorem C4_failed_accept_is_skipped (s : System) (fork : ForkOutcome) (next : AcceptEvent)
    (evs : List AcceptEvent) :
    (acceptIter s ⟨-1, fork⟩).workers = s.workers ∧
      (acceptIter s ⟨-1, fork⟩).parent.fds = s.parent.fds ∧
      (acceptIter s ⟨-1, fork⟩).parent.sockfd = s.parent.sockfd ∧
      (acceptIter s ⟨-1, fork⟩).parent.role = s.parent.role ∧
      (acceptIter s ⟨-1, fork⟩).parent.diags = s.parent.diags ++ [Diag.accept] ∧
      (acceptIter s ⟨-1, fork⟩).accepted = s.accepted ∧
      acceptLoop s (⟨-1, fork⟩ :: next :: evs)
        = acceptLoop (acceptIter (acceptIter s ⟨-1, fork⟩) next) evs ∧
      (acceptIter (acceptIter s ⟨-1, fork⟩) next).acceptLog
        = s.acceptLog ++ [s.parent.sockfd, s.parent.sockfd] := by
  have h := acceptIter_of_fail s ⟨-1, fork⟩ rfl
  refine ⟨?_, ?_, ?_, ?_, ?_, ?_, rfl, ?_⟩
  · rw [h]
  · rw [h]
  · rw [h]
  · rw [h]
  · rw [h]
  · rw [h]
  · rw [acceptIter_acceptLog, h]
    simp

/-- C6 (as stated, refuted): `accept` succeeds once and `fork` fails: one connection is
accepted and no worker is spawned; the parent closes the connection. -/
theorem C6_counterexample :
    (acceptLoop (System.atEntry 3 0) [⟨4, ForkOutcome.failed⟩]).accepted = 1 ∧
      (acceptLoop (System.atEntry 3 0) [⟨4, ForkOutcome.failed⟩]).workers = [] ∧
      (acceptLoop (System.atEntry 3 0) [⟨4, ForkOutcome.failed⟩]).parent.fds
        = [(3, Resource.listener 0)] := by
  decide

/-- C6 (amended): in every run of the accept loop, the workers spawned are, in order, one
for each pass in which `accept` succeeds and `fork` creates a child, and each of them runs
`send_to_new_fd` on the descriptor returned by the `accept` call of its own pass; the
number of accepted connections is the number of passes in which `accept` succeeds.  A pass
in which `fork` fails spawns no worker. -/
theorem C6_one_worker_per_accepted_connection_with_fork (s : System)
    (evs : List AcceptEvent) :
    (acceptLoop s evs).workers.map (fun w => w.role)
        = s.workers.map (fun w => w.role) ++
          (evs.filter AcceptEvent.spawns).map (fun ev => Role.relaying ev.acceptRet) ∧
      (acceptLoop s evs).accepted
        = s.accepted + (evs.filter (fun ev => decide (ev.acceptRet ≠ -1))).length :=
  acceptLoop_workers evs s

/-- C8: from the entry of the accept loop on, at the start of every pass, the only open
socket of the parent is the listening socket, so it holds no descriptor of an accepted
connection; every worker holds exactly one socket descriptor, the one it was given for
`send_to_new_fd`, which is a connection and not the listening socket; and no two workers
hold the same connection.  The descriptors returned by `accept` are new ones, so none is
the number of the listening socket. -/
theorem C8_ownership_of_accepted_sockets (sockfd : Int) (p : Nat) (evs : List AcceptEvent)
    (hfresh : ∀ ev ∈ evs, ev.acceptRet ≠ sockfd) :
    (acceptLoop (System.atEntry sockfd p) evs).parent.fds = [(sockfd, Resource.listener p)] ∧
      (∀ w ∈ (acceptLoop (System.atEntry sockfd p) evs).workers,
        ∃ fd k, w.role = Role.relaying fd ∧ w.fds = [(fd, Resource.conn k)] ∧
          k < (acceptLoop (System.atEntry sockfd p) evs).accepted) ∧
      ((acceptLoop (System.atEntry sockfd p) evs).workers.map (fun w => w.fds)).Nodup := by
  have h := owned_acceptLoop sockfd p evs (System.atEntry sockfd p)
    (owned_atEntry sockfd p) hfresh
  exact ⟨h.2.1, h.2.2.1, h.2.2.2⟩

/-- C8, at a run of four passes: a connection with a child, a failed `accept`, a
connection for which `fork` fails, and another connection with a child. -/
theorem C8_ownership_of_accepted_sockets_witness :
    (acceptLoop (System.atEntry 3 0)
        [⟨4, ForkOutcome.created 11⟩, ⟨-1, ForkOutcome.failed⟩, ⟨4, ForkOutcome.failed⟩,
          ⟨4, ForkOutcome.created 12⟩]).parent.fds = [(3, Resource.listener 0)] ∧
      (∀ w ∈ (acceptLoop (System.atEntry 3 0)
          [⟨4, ForkOutcome.created 11⟩, ⟨-1, ForkOutcome.failed⟩, ⟨4, ForkOutcome.failed⟩,
            ⟨4, ForkOutcome.created 12⟩]).workers,
        ∃ fd k, w.role = Role.relaying fd ∧ w.fds = [(fd, Resource.conn k)] ∧
          k < (acceptLoop (System.atEntry 3 0)
            [⟨4, ForkOutcome.created 11⟩, ⟨-1, ForkOutcome.failed⟩, ⟨4, ForkOutcome.failed⟩,
              ⟨4, ForkOutcome.created 12⟩]).accepted) ∧
      ((acceptLoop (System.atEntry 3 0)
          [⟨4, ForkOutcome.created 11⟩, ⟨-1, ForkOutcome.failed⟩, ⟨4, ForkOutcome.failed⟩,
            ⟨4, ForkOutcome.created 12⟩]).workers.map (fun w => w.fds)).Nodup :=
  C8_ownership_of_accepted_sockets 3 0
    [⟨4, ForkOutcome.created 11⟩, ⟨-1, ForkOutcome.failed⟩, ⟨4, ForkOutcome.failed⟩,
      ⟨4, ForkOutcome.created 12⟩] (by decide)

/-! ## The reaper: facts -/

theorem reapFirst_of_no_zombie (cs : List Child) (h : zombies cs = 0) :
    reapFirst cs = none ∧ cs.filter (fun c => !c.terminated) = cs := by
  induction cs with
  | nil => exact ⟨rfl, rfl⟩
  | cons c cs ih =>
    cases ht : c.terminated with
    | true => simp [zombies, ht] at h
    | false =>
      have h2 : zombies cs = 0 := by simpa [zombies, ht] using h
      obtain ⟨g1, g2⟩ := ih h2
      exact ⟨by simp [reapFirst, ht, g1], by simp [ht, g2]⟩

theorem reapFirst_of_zombie (cs : List Child) (h : 0 < zombies cs)
    (hpid : ∀ c ∈ cs, 0 < c.pid) :
    ∃ pid cs2, reapFirst cs = some (pid, cs2) ∧ 0 < pid ∧ zombies cs2 + 1 = zombies cs ∧
      cs2.filter (fun c => !c.terminated) = cs.filter (fun c => !c.terminated) ∧
      (∀ c ∈ cs2, 0 < c.pid) := by
  induction cs with
  | nil => simp [zombies] at h
  | cons c cs ih =>
    cases ht : c.terminated with
    | true =>
      refine ⟨c.pid, cs, by simp [reapFirst, ht], hpid c (by simp), ?_, ?_, ?_⟩
      · simp [zombies, ht]
      · simp [ht]
      · exact fun d hd => hpid d (by simp [hd])
    | false =>
      have h2 : 0 < zombies cs := by simpa [zombies, ht] using h
      obtain ⟨pid, cs2, g1, g2, g3, g4, g5⟩ := ih h2 (fun d hd => hpid d (by simp [hd]))
      refine ⟨pid, c :: cs2, by simp [reapFirst, ht, g1], g2, ?_, ?_, ?_⟩
      · simpa [zombies, ht] using g3
      · simp [ht, g4]
      · intro d hd
        rcases List.mem_cons.1 hd with rfl | hd
        · exact hpid d (by simp)
        · exact g5 d hd

/-- The loop of the handler reclaims every terminated child, with one call more than
there are such children; the last call may leave `ECHILD` in `errno`. -/
theorem reapLoop_done (n : Nat) (fuel : Nat) (k : Kernel) (hz : zombies k.children = n)
    (hfuel : n < fuel) (hpid : ∀ c ∈ k.children, 0 < c.pid) :
    reapLoop fuel k = HandlerResult.done
      { children := k.children.filter (fun c => !c.terminated),
        errno := if k.children.filter (fun c => !c.terminated) = [] then ECHILD else k.errno,
        waits := k.waits ++ List.replicate (n + 1) WNOHANG } := by
  induction n generalizing fuel k with
  | zero =>
    obtain ⟨f, rfl⟩ : ∃ f, fuel = f + 1 := ⟨fuel - 1, by omega⟩
    obtain ⟨g1, g2⟩ := reapFirst_of_no_zombie k.children hz
    by_cases hc : k.children = []
    · simp [reapLoop, waitpidAny, hc, reapFirst]
    · have hw : WNOHANG ≠ 0 := by decide
      simp [reapLoop, waitpidAny, g1, g2, hc, hw]
  | succ n ih =>
    obtain ⟨f, rfl⟩ : ∃ f, fuel = f + 1 := ⟨fuel - 1, by omega⟩
    obtain ⟨pid, cs2, g1, g2, g3, g4, g5⟩ :=
      reapFirst_of_zombie k.children (by omega) hpid
    have hstep : reapLoop (f + 1) k
        = reapLoop f { children := cs2, errno := k.errno, waits := k.waits ++ [WNOHANG] } := by
      simp [reapLoop, waitpidAny, g1, g2]
    rw [hstep, ih f { children := cs2, errno := k.errno, waits := k.waits ++ [WNOHANG] }
      (by simp only; omega) (by omega) g5]
    simp only [g4, List.append_assoc, List.singleton_append, ← List.replicate_succ]

/-! ## The reaper: claim -/

/-- C7: when the handler is invoked with any set of terminated children that have not been
reclaimed, it returns (it never blocks, and as many passes as there are such children
plus one suffice); on return every terminated child is reclaimed and the running children
are untouched; every `waitpid` call it made had `WNOHANG`; the calls number one more than
the terminated children, so the loop stops at the first call that finds none; and `errno`
has the value it had on entry. -/
theorem C7_handler_reclaims_all_terminated_children (k : Kernel) (fuel : Nat)
    (hpid : ∀ c ∈ k.children, 0 < c.pid) (hfuel : zombies k.children < fuel) :
    sigchld_handler fuel k = HandlerResult.done
      { children := k.children.filter (fun c => !c.terminated),
        errno := k.errno,
        waits := k.waits ++ List.replicate (zombies k.children + 1) WNOHANG } := by
  unfold sigchld_handler
  rw [reapLoop_done (zombies k.children) fuel k rfl hfuel hpid]

/-- C7, at a table of four children of which two have terminated, with `errno` 4 on
entry. -/
theorem C7_handler_reclaims_all_terminated_children_witness :
    sigchld_handler 3 ⟨[⟨21, true⟩, ⟨22, false⟩, ⟨23, true⟩, ⟨24, false⟩], 4, []⟩
      = HandlerResult.done
        { children := [⟨22, false⟩, ⟨24, false⟩], errno := 4,
          waits := [WNOHANG, WNOHANG, WNOHANG] } :=
  C7_handler_reclaims_all_terminated_children
    ⟨[⟨21, true⟩, ⟨22, false⟩, ⟨23, true⟩, ⟨24, false⟩], 4, []⟩ 3 (by decide) (by decide)

/-! ## Workers that share the terminal: facts -/

theorem Fleet.run_cons (f : Fleet) (i : Nat) (r : Int) (sched : List (Nat × Int)) :
    f.run ((i, r) :: sched) = (f.step i r).run sched := rfl

theorem Fleet.step_of_idle (f : Fleet) (h : f.idle) (i : Nat) (r : Int) : f.step i r = f := by
  unfold Fleet.step
  cases hw : f.workers[i]? with
  | none => rfl
  | some w =>
    have h1 : w.stdin = [] := h.2 w (List.getElem?_mem hw)
    simp [h1, h.1]

theorem Fleet.run_of_idle (sched : List (Nat × Int)) (f : Fleet) (h : f.idle) :
    f.run sched = f := by
  induction sched with
  | nil => rfl
  | cons e sched ih =>
    obtain ⟨i, r⟩ := e
    rw [Fleet.run_cons, Fleet.step_of_idle f h, ih]

theorem Fleet.step_out_of_range (f : Fleet) (i : Nat) (r : Int) (h : f.workers[i]? = none) :
    f.step i r = f := by
  unfold Fleet.step
  rw [h]

/-- One line of at most 99 bytes is on the terminal and all workers wait for input: the
worker scheduled first reads the line, and no later pass of any worker changes anything. -/
theorem Fleet.run_one_line (ws : List Relay) (L : List Nat) (i : Nat) (r : Int)
    (sched : List (Nat × Int)) (w0 : Relay) (hw0 : ws[i]? = some w0)
    (hidle : ∀ w ∈ ws, w.stdin = []) (hL : IsLine L []) (hlen : L.length ≤ 99) :
    Fleet.run { tty := [L], workers := ws } ((i, r) :: sched)
      = { tty := [], workers := ws.set i (sendIter { w0 with stdin := L } r) } := by
  have h0 : w0.stdin = [] := hidle w0 (List.getElem?_mem hw0)
  have hstep : Fleet.step { tty := [L], workers := ws } i r
      = { tty := [], workers := ws.set i (sendIter { w0 with stdin := L } r) } := by
    simp [Fleet.step, hw0, h0]
  rw [Fleet.run_cons, hstep]
  apply Fleet.run_of_idle
  refine ⟨rfl, ?_⟩
  intro w hw
  rcases List.mem_or_eq_of_mem_set hw with hw | rfl
  · exact hidle w hw
  · have := (sendIter_line { w0 with stdin := L } r L [] hL (by simp)).2
    rw [this, List.drop_eq_nil_of_le hlen]
    rfl

theorem fleet2_some_worker_gets_nothing (sched : List (Nat × Int)) :
    ∃ w ∈ (fleet2.run sched).workers, w.sent = [] := by
  induction sched with
  | nil => exact ⟨Relay.start 4 [] [], by simp [Fleet.run, fleet2], rfl⟩
  | cons e sched ih =>
    obtain ⟨i, r⟩ := e
    match i with
    | 0 =>
      have := Fleet.run_one_line [Relay.start 4 [] [], Relay.start 5 [] []] (hello ++ [NL]) 0 r
        sched (Relay.start 4 [] []) rfl (by decide) (by decide) (by decide)
      exact ⟨Relay.start 5 [] [], by rw [fleet2, this]; simp, rfl⟩
    | 1 =>
      have := Fleet.run_one_line [Relay.start 4 [] [], Relay.start 5 [] []] (hello ++ [NL]) 1 r
        sched (Relay.start 5 [] []) rfl (by decide) (by decide) (by decide)
      exact ⟨Relay.start 4 [] [], by rw [fleet2, this]; simp, rfl⟩
    | i + 2 =>
      rw [Fleet.run_cons, Fleet.step_out_of_range fleet2 (i + 2) r (by simp [fleet2])]
      exact ih

/-! ## Workers that share the terminal: claim -/

/-- C10 (as stated, refuted): two clients are connected and the line "hello" is entered
once; under no schedule do both workers send the array of that line: one worker reads the
line, and the other never sends anything. -/
theorem C10_counterexample :
    ¬ ∃ sched : List (Nat × Int), ∀ w ∈ (fleet2.run sched).workers,
        (w.new_fd, pad (hello ++ [NL])) ∈ w.sent := by
  rintro ⟨sched, h⟩
  obtain ⟨w, hw, hs⟩ := fleet2_some_worker_gets_nothing sched
  have := h w hw
  rw [hs] at this
  simp at this

/-- C10 (amended): a line of operator input is delivered to one worker only, the one whose
`fgets` call reads it.  With any number of connected workers waiting for input and one
line of at most 99 bytes entered once, under every schedule the worker scheduled first
sends the 100-byte array of that line on its own socket, every other worker sends
nothing, and the line is gone from the terminal. -/
theorem C10_line_goes_to_the_first_reader_only (ws : List Relay) (L : List Nat) (i : Nat)
    (sendRet : Int) (sched : List (Nat × Int)) (w0 : Relay) (hw0 : ws[i]? = some w0)
    (hidle : ∀ w ∈ ws, w.stdin = [] ∧ w.sent = []) (hL : IsLine L [])
    (hlen : L.length ≤ 99) :
    (Fleet.run { tty := [L], workers := ws } ((i, sendRet) :: sched)).workers.map
        (fun w => w.sent)
      = (ws.map (fun _ => ([] : List (Int × List Nat)))).set i [(w0.new_fd, pad L)] ∧
    (Fleet.run { tty := [L], workers := ws } ((i, sendRet) :: sched)).tty = [] := by
  rw [Fleet.run_one_line ws L i sendRet sched w0 hw0 (fun w hw => (hidle w hw).1) hL hlen]
  refine ⟨?_, rfl⟩
  have h0 : w0.sent = [] := (hidle w0 (List.getElem?_mem hw0)).2
  have h1 : (sendIter { w0 with stdin := L } sendRet).sent = [(w0.new_fd, pad L)] := by
    rw [(sendIter_line { w0 with stdin := L } sendRet L [] hL (by simp)).1,
      List.take_of_length_le hlen]
    simp [h0]
  have h2 : ws.map (fun w => w.sent) = ws.map (fun _ => ([] : List (Int × List Nat))) :=
    List.map_congr_left (fun w hw => (hidle w hw).2)
  rw [List.map_set, h1, h2]

/-- C10 (amended), at two clients and the line "hello", with the second worker scheduled
first: the first worker sends nothing, the second sends the array of the line. -/
theorem C10_line_goes_to_the_first_reader_only_witness :
    (Fleet.run { tty := [hello ++ [NL]],
                 workers := [Relay.start 4 [] [], Relay.start 5 [] []] }
        ((1, 100) :: [(0, 100), (1, 100), (0, 100)])).workers.map (fun w => w.sent)
      = ([Relay.start 4 [] [], Relay.start 5 [] []].map
          (fun _ => ([] : List (Int × List Nat)))).set 1
            [((Relay.start 5 [] []).new_fd, pad (hello ++ [NL]))] ∧
    (Fleet.run { tty := [hello ++ [NL]],
                 workers := [Relay.start 4 [] [], Relay.start 5 [] []] }
        ((1, 100) :: [(0, 100), (1, 100), (0, 100)])).tty = [] :=
  C10_line_goes_to_the_first_reader_only [Relay.start 4 [] [], Relay.start 5 [] []]
    (hello ++ [NL]) 1 100 [(0, 100), (1, 100), (0, 100)] (Relay.start 5 [] []) rfl
    (by decide) (by decide) (by decide)

end Server
